import Mathlib

/-!
Verification development for the `clean_cli` command-line parser.

The Rust sources are shallowly embedded:
* strings are represented as `List Char` (abbreviated `Str`); `HashMap<String, _>`
  becomes an association list `SMap` whose `insert` overwrites an existing key,
  mirroring `HashMap::insert`;
* `Rc<T>` shared ownership becomes plain values (a node and its aliases map to
  equal values);
* Rust panics in builder code become `Except.error`;
* handlers (`FnMut(Context) -> R`) are abstracted to a presence flag: a
  successful `exec_line` returns the `Context` that the code hands to the
  invoked handler;
* `f64` parsing is modelled with exact rational semantics (IEEE rounding and
  the infinity/NaN literals are not modelled; no claim depends on them).
-/

namespace CleanCli

abbrev Str := List Char

/-- Association-list stand-in for `HashMap<String, α>`. -/
abbrev SMap (α : Type) := List (Str × α)

/-- `HashMap::get`: the value stored under key `k`, if any. -/
def mapGet {α : Type} (m : SMap α) (k : Str) : Option α :=
  (m.find? (fun kv => kv.1 = k)).map (·.2)

/-- `HashMap::insert`: overwrite the binding for `k` if present, else add it. -/
def mapInsert {α : Type} (m : SMap α) (k : Str) (v : α) : SMap α :=
  if (m.find? (fun kv => kv.1 = k)).isSome then
    m.map (fun kv => if kv.1 = k then (k, v) else kv)
  else
    m ++ [(k, v)]

/-- `ArgType` from `parameter.rs`. -/
inductive ArgType where
  | bool
  | int
  | float
  | string
deriving DecidableEq, Repr

/-- `ArgValue` from `parameter.rs` (`f64` modelled as `Rat`). -/
inductive ArgValue where
  | bool (b : Bool)
  | int (i : Int)
  | float (q : Rat)
  | string (s : Str)
deriving DecidableEq, Repr

/-- `Parameter` from `parameter.rs`. -/
structure Parameter where
  name : Str
  value_type : ArgType
  description : Str
deriving DecidableEq, Repr

/-! ### Numeric coercion models (`i64::from_str`, `f64::from_str`) -/

def digitsToNat (l : List Char) : Nat :=
  l.foldl (fun n c => n * 10 + (c.toNat - '0'.toNat)) 0

def allDigits (l : List Char) : Bool :=
  l.all (·.isDigit)

/-- Model of `i64::from_str`: optional sign, decimal digits, 64-bit range check. -/
def i64FromStr (s : Str) : Option Int :=
  let signRest : Bool × Str :=
    match s with
    | '-' :: r => (true, r)
    | '+' :: r => (false, r)
    | r => (false, r)
  let neg := signRest.1
  let rest := signRest.2
  if rest ≠ [] ∧ allDigits rest then
    let n : Int := (digitsToNat rest : Int)
    let v : Int := if neg then -n else n
    if -(2 ^ 63) ≤ v ∧ v ≤ 2 ^ 63 - 1 then some v else none
  else none

/-- Split a char list at the first occurrence of `'.'`. -/
def splitOnDot : Str → Str × Option Str
  | [] => ([], none)
  | '.' :: rest => ([], some rest)
  | c :: rest =>
    let r := splitOnDot rest
    (c :: r.1, r.2)

/-- Split a char list at the first `'e'`/`'E'` (exponent marker). -/
def splitOnExp : Str → Str × Option Str
  | [] => ([], none)
  | 'e' :: rest => ([], some rest)
  | 'E' :: rest => ([], some rest)
  | c :: rest =>
    let r := splitOnExp rest
    (c :: r.1, r.2)

/-- Mantissa: `Digit+ | Digit+ '.' Digit* | Digit* '.' Digit+`.
Returns the digit string's value together with the number of fractional digits. -/
def parseMantissa (m : Str) : Option (Nat × Nat) :=
  match splitOnDot m with
  | (a, none) => if a ≠ [] ∧ allDigits a then some (digitsToNat a, 0) else none
  | (a, some b) =>
    if (a ≠ [] ∨ b ≠ []) ∧ allDigits a ∧ allDigits b then
      some (digitsToNat (a ++ b), b.length)
    else none

/-- Exponent part: optional sign then digits. -/
def parseExponent (e : Str) : Option Int :=
  let signRest : Bool × Str :=
    match e with
    | '-' :: r => (true, r)
    | '+' :: r => (false, r)
    | r => (false, r)
  if signRest.2 ≠ [] ∧ allDigits signRest.2 then
    let n : Int := (digitsToNat signRest.2 : Int)
    some (if signRest.1 then -n else n)
  else none

/-- Model of `f64::from_str`, restricted to finite decimal literals, with exact
rational semantics (rounding to the nearest `f64` and the `inf`/`NaN` literals
are not modelled; no claim in this development depends on those inputs). -/
def f64FromStr (s : Str) : Option Rat :=
  let signRest : Bool × Str :=
    match s with
    | '-' :: r => (true, r)
    | '+' :: r => (false, r)
    | r => (false, r)
  match splitOnExp signRest.2 with
  | (mant, expPart) =>
    match parseMantissa mant with
    | none => none
    | some (v, fracLen) =>
      let m : Int := if signRest.1 then -(v : Int) else (v : Int)
      match expPart with
      | none => some (mkRat m (10 ^ fracLen))
      | some e =>
        match parseExponent e with
        | none => none
        | some ex =>
          if 0 ≤ ex then some (mkRat (m * ((10 ^ ex.toNat : Nat) : Int)) (10 ^ fracLen))
          else some (mkRat m (10 ^ fracLen * 10 ^ (-ex).toNat))

/-! ### `parse_arg` from `cli.rs` -/

/-- The "not a boolean" message from `parse_arg` in `cli.rs`. -/
def boolErrMsg (arg : Str) : Str :=
  '"' :: arg ++ ("\" is not a boolean value. Use \"1\", \"true\", \"yes\", \"on\" for true, and \"0\", \"false\", \"no\", \"off\" for false").data

deriving instance DecidableEq for Except

/-- `arg.starts_with('-')`. -/
def startsWithDash : Str → Bool
  | '-' :: _ => true
  | _ => false

/-- `parse_arg` from `cli.rs`.  The first guard is embedded exactly as written
in the source: `arg.starts_with('-') && !(arg_type != ArgType::Int || arg_type != ArgType::Float)`.
The `i64`/`f64` library error texts are abstracted to fixed messages (no claim
inspects them). -/
def parse_arg (arg_type : ArgType) (arg : Str) : Except Str ArgValue :=
  if startsWithDash arg ∧ ¬(arg_type ≠ ArgType.int ∨ arg_type ≠ ArgType.float) then
    Except.error (("Seems ").data ++ arg ++ (" is not a value").data)
  else
    match arg_type with
    | ArgType.bool =>
      if arg = ("true").data ∨ arg = ("yes").data ∨ arg = ("1").data ∨ arg = ("on").data then
        Except.ok (ArgValue.bool true)
      else if arg = ("false").data ∨ arg = ("no").data ∨ arg = ("0").data ∨ arg = ("off").data then
        Except.ok (ArgValue.bool false)
      else
        Except.error (boolErrMsg arg)
    | ArgType.int =>
      match i64FromStr arg with
      | some i => Except.ok (ArgValue.int i)
      | none => Except.error (("Parse int error").data)
    | ArgType.float =>
      match f64FromStr arg with
      | some f => Except.ok (ArgValue.float f)
      | none => Except.error (("Parse float error").data)
    | ArgType.string => Except.ok (ArgValue.string arg)

/-! ### Tokenizer: `split_line` from `cli.rs`

Spans are not modelled (the resolution engine never reads them); each emitted
token is the sub-slice `&line[start..end]` of the original line, computed here
by `strSlice`.

Positions are character indices, but every byte offset the Rust code ever uses
as a slice boundary (`i` of the current char, `i + 1` after a one-byte quote
character, `line_len` under `line_len == i + 1`) is a character boundary, so
character-index slicing extracts exactly the bytes of the Rust slice.  The two
byte-sensitive pieces of the scanner are modelled exactly:
* Rust's Unicode `char::is_whitespace` is `rustIsWhitespace` (the Unicode
  `White_Space` code points), not Lean's ASCII-only `Char.isWhitespace`;
* the end-of-line check `line_len == i + 1` holds iff the current character is
  the last one *and* occupies a single UTF-8 byte (`i + c.utf8Size + bytes of
  the rest = line_len`), and is modelled as `rest = [] ∧ c.utf8Size = 1` — in
  particular a line ending in a multi-byte character inside a word emits
  nothing for that word, exactly like the Rust code. -/

/-- Rust `char::is_whitespace`: the Unicode `White_Space` code points. -/
def rustIsWhitespace (c : Char) : Bool :=
  decide ((9 ≤ c.toNat ∧ c.toNat ≤ 13) ∨ c.toNat = 32 ∨ c.toNat = 0x85 ∨ c.toNat = 0xA0 ∨
    c.toNat = 0x1680 ∨ (0x2000 ≤ c.toNat ∧ c.toNat ≤ 0x200A) ∨ c.toNat = 0x2028 ∨
    c.toNat = 0x2029 ∨ c.toNat = 0x202F ∨ c.toNat = 0x205F ∨ c.toNat = 0x3000)

/-- `LineParseState` from `split_line`. -/
inductive LineScanState where
  | endWord
  | startWord (start : Nat) (quote : Option Char)
deriving DecidableEq, Repr

/-- `&line[s..e]`. -/
def strSlice (line : Str) (s e : Nat) : Str :=
  (line.drop s).take (e - s)

/-- The body of `split_line`'s `filter_map` closure, iterated over
`char_indices`: `rest` is the input from position `i` on.  The Rust end-of-line
check `line_len == i + 1` is `rest = [] ∧ c.utf8Size = 1` (see the section
comment). -/
def splitGo (line : Str) : List Char → Nat → LineScanState → List Str
  | [], _, _ => []
  | c :: rest, i, st =>
    if rustIsWhitespace c then
      match st with
      | LineScanState.endWord => splitGo line rest (i + 1) LineScanState.endWord
      | LineScanState.startWord start quote =>
        match quote with
        | none => strSlice line start i :: splitGo line rest (i + 1) LineScanState.endWord
        | some _ => splitGo line rest (i + 1) (LineScanState.startWord start quote)
    else
      match st with
      | LineScanState.endWord =>
        let hasQuote := c = '\'' ∨ c = '"'
        let start := if hasQuote then i + 1 else i
        let quote := if hasQuote then some c else none
        if rest = [] ∧ c.utf8Size = 1 then [strSlice line start (i + 1)]
        else splitGo line rest (i + 1) (LineScanState.startWord start quote)
      | LineScanState.startWord start quote =>
        match quote with
        | some q =>
          if q = c then
            strSlice line start i :: splitGo line rest (i + 1) LineScanState.endWord
          else if rest = [] ∧ c.utf8Size = 1 then [strSlice line start (i + 1)]
          else splitGo line rest (i + 1) (LineScanState.startWord start quote)
        | none =>
          if rest = [] ∧ c.utf8Size = 1 then [strSlice line start (i + 1)]
          else splitGo line rest (i + 1) (LineScanState.startWord start quote)

/-- `split_line` from `cli.rs` (token texts; spans dropped). -/
def splitLine (line : Str) : List Str :=
  splitGo line line 0 LineScanState.endWord

/-! ### Command tree (`command.rs`)

`Rc<Command>` becomes a plain `Command` value; the handler
`Option<RefCell<Box<dyn FnMut(Context) -> R>>>` is abstracted to a presence
flag `exec : Bool` — a successful parse returns the `Context` handed to the
handler instead of the handler's result. -/

/-- `Command` from `command.rs`.  (`List (Str × Command)` is `SMap Command`
spelled out: the abbreviation cannot be applied to the type being declared.) -/
inductive Command where
  | mk (subcommands : List (Str × Command)) (value : Option ArgType)
       (description : Option Str) (parameters : SMap Parameter) (exec : Bool)

def Command.subcommands : Command → SMap Command
  | Command.mk s _ _ _ _ => s

def Command.value : Command → Option ArgType
  | Command.mk _ v _ _ _ => v

def Command.description : Command → Option Str
  | Command.mk _ _ d _ _ => d

def Command.parameters : Command → SMap Parameter
  | Command.mk _ _ _ p _ => p

def Command.exec : Command → Bool
  | Command.mk _ _ _ _ e => e

/-- `ContextUnit` from `context.rs`: the matched spelling, the resolved command
node, the bound parameters (keyed by canonical name) and the bound positional
value. -/
structure ContextUnit where
  name : Str
  command : Command
  parameters : SMap (Parameter × ArgValue)
  value : Option ArgValue

/-- `Context` from `context.rs` (the printer reference is out of scope). -/
structure Context where
  units : List ContextUnit

/-- `Kind` from `error.rs`. -/
inductive ErrorKind where
  | NotCommand
  | NotParameter
  | CantExecuteParameter
  | ValueParseFailed
  | ParameterValueMissed
  | ParserError
  | CantExecuteCommand
deriving DecidableEq, Repr

/-- `Error` from `error.rs`. -/
structure Error where
  kind : ErrorKind
  details : Str
deriving DecidableEq, Repr

/-- `Cli` from `cli.rs` (printer omitted: it only mirrors the returned error). -/
structure Cli where
  root : Str × Command
  need_print_error : Bool
  need_print_help : Bool

/-- `Cli::commands`. -/
def Cli.commands (cli : Cli) : SMap Command :=
  cli.root.2.subcommands

/-! ### Resolution engine: `Cli::exec_line` from `cli.rs` -/

/-- `ParseState` from `exec_line` (`VecDeque` becomes `List`, front at head). -/
inductive ParseState where
  | readFirst
  | readNext
  | parametersReaded (params : List Parameter)
deriving DecidableEq, Repr

/-- The loop-carried state of `exec_line`: `ctx.units`, `state` and `pos`. -/
structure LoopState where
  units : List ContextUnit
  state : ParseState
  pos : Nat

/-- A freshly pushed `ContextUnit`. -/
def mkUnit (name : Str) (cmd : Command) : ContextUnit :=
  { name := name, command := cmd, parameters := [], value := none }

/-- The state before the token loop: `ctx.units` holds one unit for the
implicit root, `state = ReadFirst`, `pos = 1`. -/
def initState (cli : Cli) : LoopState :=
  { units := [mkUnit cli.root.1 cli.root.2], state := ParseState.readFirst, pos := 1 }

/-- `arg.starts_with(p)` on char lists. -/
def startsWithL : Str → Str → Bool
  | _, [] => true
  | [], _ :: _ => false
  | c :: cs, p :: ps => c = p && startsWithL cs ps

/-- `arg.strip_prefix("--")`. -/
def stripTwoDash : Str → Option Str
  | '-' :: '-' :: rest => some rest
  | _ => none

/-- `arg.strip_prefix('-')`. -/
def stripOneDash : Str → Option Str
  | '-' :: rest => some rest
  | _ => none

/-- The `for a in arg.chars()` loop of the short-cluster branch: each resolved
Bool parameter is bound immediately on the current unit, each resolved non-Bool
parameter is appended to the queue; an unresolved character aborts with
`NotParameter` whose details are the whole stripped cluster (`full`). -/
def clusterScan (cmd : Command) (full : Str) :
    List Char → ContextUnit → List Parameter → Except Error (ContextUnit × List Parameter)
  | [], u, ps => Except.ok (u, ps)
  | a :: rest, u, ps =>
    match mapGet cmd.parameters [a] with
    | some p =>
      if p.value_type = ArgType.bool then
        let u' :=
          match mapGet u.command.parameters [a] with
          | some p2 =>
            { u with parameters := mapInsert u.parameters p2.name (p2, ArgValue.bool true) }
          | none => u
        clusterScan cmd full rest u' ps
      else
        clusterScan cmd full rest u (ps ++ [p])
    | none => Except.error { kind := ErrorKind.NotParameter, details := full }

/-- One iteration of the `for (arg, span) in args` loop of `exec_line`.
Rust's `ctx.units[pos]` panics when out of range; that state is unreachable
(the loop keeps `pos` pointing at the last unit) and is modelled as an internal
`ParserError`. -/
def stepToken (cli : Cli) (s : LoopState) (arg : Str) : Except Error LoopState :=
  match s.state with
  | ParseState.readFirst =>
    if startsWithL arg ['-', '-'] ∨ startsWithL arg ['-'] then
      Except.error { kind := ErrorKind.CantExecuteParameter, details := arg }
    else
      match mapGet cli.commands arg with
      | some cmd =>
        Except.ok { units := s.units ++ [mkUnit arg cmd], state := ParseState.readNext, pos := s.pos }
      | none => Except.error { kind := ErrorKind.NotCommand, details := arg }
  | ParseState.readNext =>
    match s.units.get? s.pos with
    | none => Except.error { kind := ErrorKind.ParserError, details := ("unreachable: bad unit index").data }
    | some lastUnit =>
      let cmd := lastUnit.command
      match stripTwoDash arg with
      | some name =>
        match mapGet cmd.parameters name with
        | some p =>
          if p.value_type = ArgType.bool then
            let units' :=
              match mapGet lastUnit.command.parameters name with
              | some p2 =>
                s.units.set s.pos
                  { lastUnit with
                    parameters := mapInsert lastUnit.parameters p2.name (p2, ArgValue.bool true) }
              | none => s.units
            Except.ok { units := units', state := ParseState.readNext, pos := s.pos }
          else
            Except.ok { units := s.units, state := ParseState.parametersReaded [p], pos := s.pos }
        | none => Except.error { kind := ErrorKind.NotParameter, details := name }
      | none =>
        match stripOneDash arg with
        | some cluster =>
          match clusterScan cmd cluster cluster lastUnit [] with
          | Except.error e => Except.error e
          | Except.ok (u', ps) =>
            let units' := s.units.set s.pos u'
            if ps ≠ [] then
              Except.ok { units := units', state := ParseState.parametersReaded ps, pos := s.pos }
            else
              Except.ok { units := units', state := ParseState.readNext, pos := s.pos }
        | none =>
          match mapGet cmd.subcommands arg with
          | some sub =>
            Except.ok { units := s.units ++ [mkUnit arg sub], state := ParseState.readNext, pos := s.pos + 1 }
          | none =>
            match cmd.value with
            | some v =>
              match parse_arg v arg with
              | Except.ok value =>
                Except.ok { units := s.units.set s.pos { lastUnit with value := some value },
                            state := ParseState.readNext, pos := s.pos }
              | Except.error details =>
                Except.error { kind := ErrorKind.ValueParseFailed, details := details }
            | none => Except.error { kind := ErrorKind.NotCommand, details := arg }
  | ParseState.parametersReaded params =>
    match s.units.get? s.pos with
    | none => Except.error { kind := ErrorKind.ParserError, details := ("unreachable: bad unit index").data }
    | some lastUnit =>
      match params with
      | [] => Except.error { kind := ErrorKind.ParserError, details := ("unreachable: empty pending queue").data }
      | param :: rest =>
        match parse_arg param.value_type arg with
        | Except.ok value =>
          let units' := s.units.set s.pos
            { lastUnit with parameters := mapInsert lastUnit.parameters param.name (param, value) }
          Except.ok { units := units',
                      state := if rest = [] then ParseState.readNext else ParseState.parametersReaded rest,
                      pos := s.pos }
        | Except.error details =>
          Except.error { kind := ErrorKind.ValueParseFailed, details := details }

/-- The token loop of `exec_line`. -/
def runTokens (cli : Cli) : List Str → LoopState → Except Error LoopState
  | [], s => Except.ok s
  | t :: ts, s =>
    match stepToken cli s t with
    | Except.ok s' => runTokens cli ts s'
    | Except.error e => Except.error e

/-- Details of the `ParameterValueMissed` error (the `parametr` typo is in the
source). -/
def paramMissedMsg (n : Str) : Str :=
  ("parametr \"").data ++ n ++ ("\" has no value").data

/-- Details of the defensive `ParserError` at end of input. -/
def wrongParamsMsg (n : Nat) : Str :=
  ("Wrong params value: ").data ++ (toString n).data

/-- The handler-invocation epilogue of `exec_line`: `Except.ok (some ctx)`
models `Ok(f(ctx))` — the handler of the last unit invoked with `ctx`; the
`none` alternative models the (unreachable) `Ok(Default::default())` arm for an
empty unit list. -/
def invokeLast (s : LoopState) : Except Error (Option Context) :=
  match s.units.getLast? with
  | some u =>
    if u.command.exec then Except.ok (some { units := s.units })
    else
      Except.error { kind := ErrorKind.CantExecuteCommand,
                     details := ("No handler for command: ").data ++ u.name }
  | none => Except.ok none

/-- The epilogue of `exec_line` after the token loop: the pending-parameter
check followed by handler invocation. -/
def finishParse (s : LoopState) : Except Error (Option Context) :=
  match s.state with
  | ParseState.parametersReaded params =>
    if params.length > 1 then
      Except.error { kind := ErrorKind.ParserError, details := wrongParamsMsg params.length }
    else
      match params.getLast? with
      | none => Except.error { kind := ErrorKind.ParserError, details := ("unreachable: empty pending queue").data }
      | some param =>
        match param.value_type with
        | ArgType.bool => invokeLast s
        | _ => Except.error { kind := ErrorKind.ParameterValueMissed, details := paramMissedMsg param.name }
  | _ => invokeLast s

/-- `exec_line` on an already tokenized line. -/
def execTokens (cli : Cli) (tokens : List Str) : Except Error (Option Context) :=
  match runTokens cli tokens (initState cli) with
  | Except.ok s => finishParse s
  | Except.error e => Except.error e

/-- `Cli::exec_line` from `cli.rs`. -/
def Cli.exec_line (cli : Cli) (line : Str) : Except Error (Option Context) :=
  execTokens cli (splitLine line)

/-! ### Builder (`command.rs`, `cli.rs`)

Builder-time panics become `Except.error` carrying the panic message. -/

/-- `ParameterBuilder` from `parameter.rs`. -/
structure ParameterBuilder where
  name : Str
  aliases : List Str
  description : Option Str
  value_type : ArgType

/-- `CommandBuilder` from `command.rs`. -/
inductive CommandBuilder where
  | mk (name : Str) (aliases : List Str) (subcommands : List CommandBuilder)
       (value : Option ArgType) (description : Option Str)
       (parameters : SMap Parameter) (handler : Bool)

def CommandBuilder.name : CommandBuilder → Str
  | CommandBuilder.mk n _ _ _ _ _ _ => n

def CommandBuilder.aliases : CommandBuilder → List Str
  | CommandBuilder.mk _ a _ _ _ _ _ => a

def CommandBuilder.subcommands : CommandBuilder → List CommandBuilder
  | CommandBuilder.mk _ _ s _ _ _ _ => s

def CommandBuilder.value : CommandBuilder → Option ArgType
  | CommandBuilder.mk _ _ _ v _ _ _ => v

def CommandBuilder.description : CommandBuilder → Option Str
  | CommandBuilder.mk _ _ _ _ d _ _ => d

def CommandBuilder.parameters : CommandBuilder → SMap Parameter
  | CommandBuilder.mk _ _ _ _ _ p _ => p

def CommandBuilder.handler : CommandBuilder → Bool
  | CommandBuilder.mk _ _ _ _ _ _ h => h

/-- The `while let Some(x) = v.pop() { m.insert(x, item) }` alias loop: the
vector is drained from the back, so the head of the list is inserted last. -/
def insertKeys {α : Type} (v : α) : List Str → SMap α → SMap α
  | [], m => m
  | k :: rest, m => mapInsert (insertKeys v rest m) k v

/-- Panic message of `add_parameter`. -/
def paramExistsMsg (n : Str) : Str :=
  ("parameter with name \"").data ++ n ++ ("\" already exist").data

/-- Panic message of `add_command`. -/
def cmdExistsMsg (name existDesc newDesc : Str) : Str :=
  ("command \"").data ++ name ++ (": ").data ++ existDesc ++
    ("\" already exist\nand can not be replaced with command \"").data ++
    name ++ (": ").data ++ newDesc ++ ("\"").data

/-- Panic message of `CommandBuilder::build` for a vacuous command. -/
def vacuousMsg (name desc : Str) : Str :=
  ("command \"").data ++ name ++ (": ").data ++ desc ++
    ("\" has no value or handler or subcommand").data

/-- `add_parameter` from `command.rs`: only the new entry's canonical name is
checked against the existing keys; its aliases are inserted unconditionally,
overwriting whatever was registered under them. -/
def add_parameter (parameters : SMap Parameter) (pb : ParameterBuilder) : Except Str (SMap Parameter) :=
  if (mapGet parameters pb.name).isSome then
    Except.error (paramExistsMsg pb.name)
  else
    let parameter : Parameter :=
      { name := pb.name, value_type := pb.value_type, description := pb.description.getD [] }
    Except.ok (insertKeys parameter pb.aliases (mapInsert parameters pb.name parameter))

/-- The synthetic `help` command (its `help_handler` is a handler like any
other, hence `exec = true`). -/
def helpCommand : Command :=
  Command.mk [] none (some ("This help").data) [] true

def helpName : Str := ("help").data

def helpDesc : Str := ("This help").data

mutual

/-- `CommandBuilder::build` from `command.rs`, with `build_subcommands`' help
insertion inlined (the `add_command(help)` call is unfolded on the constant
help builder, which is non-vacuous and has no subcommands or aliases). -/
def buildCmd : CommandBuilder → Bool → Except Str (Command × Str × List Str)
  | CommandBuilder.mk name aliases subs value descr params handler, needHelp =>
    if value = none ∧ handler = false ∧ subs.isEmpty then
      Except.error (vacuousMsg name (descr.getD []))
    else
      match buildSubs subs needHelp with
      | Except.error e => Except.error e
      | Except.ok m =>
        let subsRes : Except Str (SMap Command) :=
          if needHelp ∧ subs.isEmpty = false then
            match mapGet m helpName with
            | some exist => Except.error (cmdExistsMsg helpName (exist.description.getD []) helpDesc)
            | none => Except.ok (mapInsert m helpName helpCommand)
          else Except.ok m
        match subsRes with
        | Except.error e => Except.error e
        | Except.ok subcommands =>
          Except.ok (Command.mk subcommands value descr params handler, name, aliases)

/-- The `while let Some(cb) = builders.pop() { add_command(...) }` loop of
`build_subcommands`: the vector is drained from the back, so the head of the
list is added last. -/
def buildSubs : List CommandBuilder → Bool → Except Str (SMap Command)
  | [], _ => Except.ok []
  | cb :: rest, needHelp =>
    match buildSubs rest needHelp with
    | Except.error e => Except.error e
    | Except.ok m => addCommand m cb needHelp

/-- `add_command` from `command.rs`: only the new builder's canonical name is
checked against the existing keys; its aliases are inserted unconditionally,
overwriting whatever was registered under them. -/
def addCommand (commands : SMap Command) (cb : CommandBuilder) (needHelp : Bool) : Except Str (SMap Command) :=
  match mapGet commands cb.name with
  | some exist =>
    Except.error (cmdExistsMsg cb.name (exist.description.getD []) (cb.description.getD []))
  | none =>
    match buildCmd cb needHelp with
    | Except.error e => Except.error e
    | Except.ok (command, name, aliases) =>
      Except.ok (insertKeys command aliases (mapInsert commands name command))

end

/-- `CliBuilder` from `cli.rs` (printer omitted). -/
structure CliBuilder where
  commands : List CommandBuilder
  need_print_error : Bool
  need_print_help : Bool

/-- `CliBuilder::build` from `cli.rs`, with the `add_command(help)` call
unfolded on the constant help builder. -/
def cliBuild (b : CliBuilder) : Except Str Cli :=
  match buildSubs b.commands b.need_print_help with
  | Except.error e => Except.error e
  | Except.ok m =>
    let mRes : Except Str (SMap Command) :=
      if b.need_print_help then
        match mapGet m helpName with
        | some exist => Except.error (cmdExistsMsg helpName (exist.description.getD []) helpDesc)
        | none => Except.ok (mapInsert m helpName helpCommand)
      else Except.ok m
    match mRes with
    | Except.error e => Except.error e
    | Except.ok commands =>
      Except.ok { root := (("root").data, Command.mk commands none none [] false),
                  need_print_error := b.need_print_error,
                  need_print_help := b.need_print_help }

/-! ### Observation helpers on `exec_line` results -/

/-- The units of the context handed to the handler, if a handler was invoked. -/
def ctxUnits : Except Error (Option Context) → Option (List ContextUnit)
  | Except.ok (some c) => some c.units
  | _ => none

/-- Number of context units handed to the handler. -/
def unitsCount (r : Except Error (Option Context)) : Option Nat :=
  (ctxUnits r).map (·.length)

/-- The matched spellings of the context units handed to the handler. -/
def unitNames (r : Except Error (Option Context)) : Option (List Str) :=
  (ctxUnits r).map (List.map ContextUnit.name)

/-- The binding stored under canonical parameter name `key` in unit `idx`. -/
def unitParam (r : Except Error (Option Context)) (idx : Nat) (key : Str) :
    Option (Parameter × ArgValue) :=
  (ctxUnits r).bind (fun us => (us.get? idx).bind (fun u => mapGet u.parameters key))

/-- `us` is a chain of matched command frames below base command `c`: each
unit's command was found in the previous frame's subcommand map under the
spelling recorded in the unit. -/
def chainFrom : Command → List ContextUnit → Prop
  | _, [] => True
  | c, u :: rest => mapGet c.subcommands u.name = some u.command ∧ chainFrom u.command rest

/-- The `Context` shape `exec_line` guarantees: a leading unit for the
implicit root node, followed by one unit per matched command frame in match
order (the last frame is the command whose handler runs). -/
def rootedChain (cli : Cli) (us : List ContextUnit) : Prop :=
  match us with
  | [] => False
  | r :: rest => r.name = cli.root.1 ∧ r.command = cli.root.2 ∧ chainFrom cli.root.2 rest

/-- The command of the last unit of `us` (or `c` when `us` is empty). -/
def lastCmdOf (c : Command) : List ContextUnit → Command
  | [] => c
  | u :: rest => lastCmdOf u.command rest

/-- Invariant of `exec_line`'s token loop: the units always form a rooted
chain, and once the first command is matched, `pos` indexes the last unit. -/
def loopInv (cli : Cli) (s : LoopState) : Prop :=
  rootedChain cli s.units ∧
  (match s.state with
   | ParseState.readFirst => s.units = [mkUnit cli.root.1 cli.root.2] ∧ s.pos = 1
   | _ => s.pos + 1 = s.units.length)

/-! ### Concrete fixtures

`cli5` mirrors the command of the `command_with_mixed_params` test: one
command `cmd` with parameters `bool/int/float/string` aliased
`b,bb/i,ii/f,ff/s,ss`, and a handler.  `cli2` mirrors
`command_with_mixed_params_with_subcommand`'s shape stripped to `cmd sub` with
the handler on `sub`.  `cli8b` has a command with a subcommand named `x` and no
parameter `x`. -/

def pBool5 : Parameter := { name := ("bool").data, value_type := ArgType.bool, description := [] }

def pInt5 : Parameter := { name := ("int").data, value_type := ArgType.int, description := [] }

def pFloat5 : Parameter := { name := ("float").data, value_type := ArgType.float, description := [] }

def pString5 : Parameter := { name := ("string").data, value_type := ArgType.string, description := [] }

def params5 : SMap Parameter :=
  [(("bool").data, pBool5), (("bb").data, pBool5), (("b").data, pBool5),
   (("int").data, pInt5), (("ii").data, pInt5), (("i").data, pInt5),
   (("float").data, pFloat5), (("ff").data, pFloat5), (("f").data, pFloat5),
   (("string").data, pString5), (("ss").data, pString5), (("s").data, pString5)]

def cmd5 : Command := Command.mk [] none none params5 true

def cli5 : Cli :=
  { root := (("root").data, Command.mk [(("cmd").data, cmd5)] none none [] false),
    need_print_error := false, need_print_help := false }

def sub2 : Command := Command.mk [] none none [] true

def cmd2 : Command := Command.mk [(("sub").data, sub2)] none none [] false

def cli2 : Cli :=
  { root := (("root").data, Command.mk [(("cmd").data, cmd2)] none none [] false),
    need_print_error := false, need_print_help := false }

def subX : Command := Command.mk [] none none [] true

def cmd8 : Command := Command.mk [(("x").data, subX)] none none [] true

def cli8b : Cli :=
  { root := (("root").data, Command.mk [(("cmd").data, cmd8)] none none [] false),
    need_print_error := false, need_print_help := false }

/-- The loop state after `cmd` has been matched in `cli8b`. -/
def s8 : LoopState :=
  { units := [mkUnit ("root").data cli8b.root.2, mkUnit ("cmd").data cmd8],
    state := ParseState.readNext, pos := 1 }

/-- The loop state after `cmd` has been matched in `cli5`. -/
def s5 : LoopState :=
  { units := [mkUnit ("root").data cli5.root.2, mkUnit ("cmd").data cmd5],
    state := ParseState.readNext, pos := 1 }

/-- Parameters used by the builder-validation claims. -/
def pX3 : Parameter := { name := ("x").data, value_type := ArgType.bool, description := [] }

def pY3 : Parameter := { name := ("y").data, value_type := ArgType.int, description := [] }

def pA3 : Parameter := { name := ("a").data, value_type := ArgType.bool, description := [] }

/-- A parameter builder named `y` carrying the colliding alias `x`. -/
def pbY3 : ParameterBuilder :=
  { name := ("y").data, aliases := [("x").data], description := none, value_type := ArgType.int }

/-- The parse state reached after running `ts`, if no error occurred. -/
def runStateAfter (cli : Cli) (ts : List Str) : Option ParseState :=
  match runTokens cli ts (initState cli) with
  | Except.ok s => some s.state
  | Except.error _ => none

/-- The binding stored under `key` in unit `idx` after running `ts`. -/
def runBoundParam (cli : Cli) (ts : List Str) (idx : Nat) (key : Str) :
    Option (Parameter × ArgValue) :=
  match runTokens cli ts (initState cli) with
  | Except.ok s => (s.units.get? idx).bind (fun u => mapGet u.parameters key)
  | Except.error _ => none

/-- Space-join of a list of words (the line `w1 w2 … wn`). -/
def joinSp : List Str → Str
  | [] => []
  | [w] => w
  | w :: ws => w ++ ' ' :: joinSp ws

/-- What follows a word in a space-joined line: nothing, or a space and the
remaining words. -/
def wsRest : List Str → Str
  | [] => []
  | ws => ' ' :: joinSp ws

/-- A plain unquoted word: nonempty, containing neither (Unicode) whitespace
nor quote characters. -/
def plainWord (w : Str) : Prop :=
  w ≠ [] ∧ ∀ c ∈ w, rustIsWhitespace c = false ∧ c ≠ '\'' ∧ c ≠ '"'

instance (w : Str) : Decidable (plainWord w) := by
  unfold plainWord
  infer_instance

/-- The line ends in a single-byte character (vacuously true for the empty
line).  Under the byte-exact end-of-line check this is what the final-word
emission of `split_line` requires. -/
def lastCharOneByte (l : Str) : Prop :=
  ∀ c, l.getLast? = some c → c.utf8Size = 1

instance (l : Str) : Decidable (lastCharOneByte l) :=
  decidable_of_iff (∀ c ∈ l.getLast?, c.utf8Size = 1) (by
    unfold lastCharOneByte
    simp [Option.mem_def])

/-- The accepted `true` literals of Bool coercion. -/
def trueLits : List Str := [("true").data, ("yes").data, ("1").data, ("on").data]

/-- The accepted `false` literals of Bool coercion. -/
def falseLits : List Str := [("false").data, ("no").data, ("0").data, ("off").data]

/-! ## Helper lemmas -/

theorem runTokens_append (cli : Cli) (ts us : List Str) (s : LoopState) :
    runTokens cli (ts ++ us) s =
      match runTokens cli ts s with
      | Except.ok s' => runTokens cli us s'
      | Except.error e => Except.error e := by
  induction ts generalizing s with
  | nil => rfl
  | cons t ts ih =>
    simp only [List.cons_append, runTokens]
    cases stepToken cli s t with
    | ok s' => exact ih s'
    | error e => rfl

theorem list_set_self {α : Type} (l : List α) (i : Nat) (a : α)
    (h : l.get? i = some a) : l.set i a = l := by
  induction l generalizing i with
  | nil => rfl
  | cons x xs ih =>
    cases i with
    | zero =>
      simp only [List.get?] at h
      simp [List.set, Option.some.injEq] at h ⊢
      exact h.symm
    | succ n =>
      simp only [List.get?] at h
      simp [List.set, ih n h]

theorem stripTwoDash_two (x : Str) : stripTwoDash ('-' :: '-' :: x) = some x := rfl

theorem stripTwoDash_one : stripTwoDash ['-'] = none := rfl

theorem stripOneDash_cons (r : Str) : stripOneDash ('-' :: r) = some r := rfl

theorem stripTwoDash_ne (c : Char) (h : c ≠ '-') (rest : Str) :
    stripTwoDash ('-' :: c :: rest) = none := by
  unfold stripTwoDash
  split
  · next heq =>
    injection heq with h1 h2
    injection h2 with h3 h4
    exact absurd h3 h
  · rfl

theorem finishParse_single_pending (units : List ContextUnit) (pos : Nat) (p : Parameter)
    (hb : p.value_type ≠ ArgType.bool) :
    finishParse { units := units, state := ParseState.parametersReaded [p], pos := pos }
      = Except.error { kind := ErrorKind.ParameterValueMissed, details := paramMissedMsg p.name } := by
  simp only [finishParse]
  rw [if_neg (by simp)]
  simp only [List.getLast?_singleton]

/-! ### Context-chain invariant of the token loop (C2) -/

theorem chainFrom_set (u' lu : ContextUnit)
    (hn : u'.name = lu.name) (hc : u'.command = lu.command) :
    ∀ (c : Command) (us : List ContextUnit) (pos : Nat),
      us.get? pos = some lu → chainFrom c us → chainFrom c (us.set pos u') := by
  intro c us
  induction us generalizing c with
  | nil =>
    intro pos hg
    simp at hg
  | cons u rest ih =>
    intro pos hg hch
    cases pos with
    | zero =>
      simp only [List.get?] at hg
      injection hg with hg
      subst hg
      exact ⟨by rw [hn, hc]; exact hch.1, by rw [hc]; exact hch.2⟩
    | succ n =>
      simp only [List.get?] at hg
      exact ⟨hch.1, ih u.command n hg hch.2⟩

theorem rootedChain_set (cli : Cli) (us : List ContextUnit) (pos : Nat) (lu u' : ContextUnit)
    (hg : us.get? pos = some lu) (hn : u'.name = lu.name) (hc : u'.command = lu.command)
    (h : rootedChain cli us) : rootedChain cli (us.set pos u') := by
  cases us with
  | nil => exact h.elim
  | cons r rest =>
    obtain ⟨h1, h2, h3⟩ := h
    cases pos with
    | zero =>
      simp only [List.get?] at hg
      injection hg with hg
      subst hg
      exact ⟨by rw [hn]; exact h1, by rw [hc]; exact h2, h3⟩
    | succ n =>
      simp only [List.get?] at hg
      exact ⟨h1, h2, chainFrom_set u' lu hn hc cli.root.2 rest n hg h3⟩

theorem chainFrom_snoc (a : Str) (sub : Command) :
    ∀ (us : List ContextUnit) (c : Command), chainFrom c us →
      mapGet (lastCmdOf c us).subcommands a = some sub →
      chainFrom c (us ++ [mkUnit a sub]) := by
  intro us
  induction us with
  | nil =>
    intro c _ hl
    exact ⟨hl, trivial⟩
  | cons u rest ih =>
    intro c hch hl
    exact ⟨hch.1, ih u.command hch.2 hl⟩

theorem lastCmdOf_getLast (c : Command) :
    ∀ (us : List ContextUnit) (lu : ContextUnit),
      us.getLast? = some lu → lastCmdOf c us = lu.command := by
  intro us
  induction us generalizing c with
  | nil =>
    intro lu h
    exact absurd h (by simp)
  | cons u rest ih =>
    intro lu h
    cases rest with
    | nil =>
      simp only [List.getLast?_singleton] at h
      injection h with h
      subst h
      rfl
    | cons v rest2 =>
      rw [List.getLast?_cons_cons] at h
      exact ih u.command lu h

theorem rootedChain_push (cli : Cli) (us : List ContextUnit) (lu : ContextUnit)
    (a : Str) (sub : Command)
    (hlast : us.getLast? = some lu)
    (hsub : mapGet lu.command.subcommands a = some sub)
    (h : rootedChain cli us) : rootedChain cli (us ++ [mkUnit a sub]) := by
  cases us with
  | nil => exact h.elim
  | cons r rest =>
    obtain ⟨h1, h2, h3⟩ := h
    refine ⟨h1, h2, chainFrom_snoc a sub rest cli.root.2 h3 ?_⟩
    cases rest with
    | nil =>
      have hr : r = lu := by
        simp only [List.getLast?_singleton] at hlast
        injection hlast
      rw [show lastCmdOf cli.root.2 ([] : List ContextUnit) = cli.root.2 from rfl, ← h2, hr]
      exact hsub
    | cons v rest2 =>
      rw [List.getLast?_cons_cons] at hlast
      rw [lastCmdOf_getLast cli.root.2 (v :: rest2) lu hlast]
      exact hsub

theorem clusterScan_fields (cmd : Command) (full : Str) :
    ∀ (l : List Char) (u : ContextUnit) (ps : List Parameter) (u' : ContextUnit)
      (ps' : List Parameter),
      clusterScan cmd full l u ps = Except.ok (u', ps') →
      u'.name = u.name ∧ u'.command = u.command := by
  intro l
  induction l with
  | nil =>
    intro u ps u' ps' h
    simp only [clusterScan] at h
    injection h with h
    injection h with h1 h2
    subst h1
    exact ⟨rfl, rfl⟩
  | cons a rest ih =>
    intro u ps u' ps' h
    simp only [clusterScan] at h
    cases hp : mapGet cmd.parameters [a] with
    | none =>
      simp only [hp] at h
      exact Except.noConfusion h
    | some p =>
      simp only [hp] at h
      by_cases hb : p.value_type = ArgType.bool
      · rw [if_pos hb] at h
        cases hp2 : mapGet u.command.parameters [a] with
        | none =>
          simp only [hp2] at h
          exact ih _ _ _ _ h
        | some p2 =>
          simp only [hp2] at h
          have h5 := ih _ _ _ _ h
          exact ⟨h5.1, h5.2⟩
      · rw [if_neg hb] at h
        exact ih _ _ _ _ h

theorem get?_of_last (us : List ContextUnit) (pos : Nat) (h : pos + 1 = us.length) :
    us.get? pos = us.getLast? := by
  rw [List.get?_eq_getElem?, List.getLast?_eq_getElem?]
  congr 1
  omega

theorem invokeLast_ok (s : LoopState) (ctx : Context)
    (h : invokeLast s = Except.ok (some ctx)) :
    ctx.units = s.units ∧ ∃ u, s.units.getLast? = some u ∧ u.command.exec = true := by
  unfold invokeLast at h
  cases hl : s.units.getLast? with
  | none =>
    simp only [hl] at h
    injection h with h
    exact Option.noConfusion h
  | some u =>
    simp only [hl] at h
    by_cases he : u.command.exec = true
    · rw [if_pos he] at h
      injection h with h
      injection h with h
      subst h
      exact ⟨rfl, u, rfl, he⟩
    · rw [if_neg he] at h
      exact Except.noConfusion h

theorem finishParse_ok (s : LoopState) (ctx : Context)
    (h : finishParse s = Except.ok (some ctx)) :
    ctx.units = s.units ∧ ∃ u, s.units.getLast? = some u ∧ u.command.exec = true := by
  unfold finishParse at h
  cases hs : s.state with
  | readFirst =>
    simp only [hs] at h
    exact invokeLast_ok s ctx h
  | readNext =>
    simp only [hs] at h
    exact invokeLast_ok s ctx h
  | parametersReaded ps =>
    simp only [hs] at h
    by_cases hlen : ps.length > 1
    · rw [if_pos hlen] at h
      exact Except.noConfusion h
    · rw [if_neg hlen] at h
      cases hgl : ps.getLast? with
      | none =>
        simp only [hgl] at h
        exact Except.noConfusion h
      | some p =>
        simp only [hgl] at h
        cases hv : p.value_type with
        | bool =>
          simp only [hv] at h
          exact invokeLast_ok s ctx h
        | int =>
          simp only [hv] at h
          exact Except.noConfusion h
        | float =>
          simp only [hv] at h
          exact Except.noConfusion h
        | string =>
          simp only [hv] at h
          exact Except.noConfusion h

theorem loopInv_init (cli : Cli) : loopInv cli (initState cli) :=
  ⟨⟨rfl, rfl, trivial⟩, rfl, rfl⟩

theorem stepToken_inv (cli : Cli) (s s' : LoopState) (t : Str)
    (hinv : loopInv cli s) (h : stepToken cli s t = Except.ok s') : loopInv cli s' := by
  obtain ⟨units, st, pos⟩ := s
  obtain ⟨hchain, hrest⟩ := hinv
  cases st with
  | readFirst =>
    obtain ⟨hu, hp⟩ := hrest
    simp only at hu hp
    subst hu
    subst hp
    simp only [stepToken] at h
    by_cases hd : (startsWithL t ['-', '-'] = true ∨ startsWithL t ['-'] = true)
    · rw [if_pos hd] at h
      exact Except.noConfusion h
    · rw [if_neg hd] at h
      cases hcm : mapGet cli.commands t with
      | none =>
        simp only [hcm] at h
        exact Except.noConfusion h
      | some cmd =>
        simp only [hcm] at h
        injection h with h
        subst h
        exact ⟨⟨rfl, rfl, hcm, trivial⟩, rfl⟩
  | readNext =>
    simp only at hrest
    cases hget : units.get? pos with
    | none =>
      simp only [stepToken, hget] at h
      exact Except.noConfusion h
    | some lu =>
      simp only [stepToken, hget] at h
      cases hstrip : stripTwoDash t with
      | some name =>
        simp only [hstrip] at h
        cases hp : mapGet lu.command.parameters name with
        | none =>
          simp only [hp] at h
          exact Except.noConfusion h
        | some p =>
          simp only [hp] at h
          by_cases hb : p.value_type = ArgType.bool
          · rw [if_pos hb] at h
            injection h with h
            subst h
            refine ⟨rootedChain_set cli units pos lu _ hget rfl rfl hchain, ?_⟩
            simpa [List.length_set] using hrest
          · rw [if_neg hb] at h
            injection h with h
            subst h
            exact ⟨hchain, hrest⟩
      | none =>
        simp only [hstrip] at h
        cases hstrip1 : stripOneDash t with
        | some cluster =>
          simp only [hstrip1] at h
          cases hscan : clusterScan lu.command cluster cluster lu [] with
          | error e =>
            simp only [hscan] at h
            exact Except.noConfusion h
          | ok r =>
            obtain ⟨u2, ps⟩ := r
            simp only [hscan] at h
            obtain ⟨hn2, hc2⟩ := clusterScan_fields lu.command cluster cluster lu [] u2 ps hscan
            by_cases hps : ps ≠ []
            · rw [if_pos hps] at h
              injection h with h
              subst h
              refine ⟨rootedChain_set cli units pos lu u2 hget hn2 hc2 hchain, ?_⟩
              simpa [List.length_set] using hrest
            · rw [if_neg hps] at h
              injection h with h
              subst h
              refine ⟨rootedChain_set cli units pos lu u2 hget hn2 hc2 hchain, ?_⟩
              simpa [List.length_set] using hrest
        | none =>
          simp only [hstrip1] at h
          cases hsub : mapGet lu.command.subcommands t with
          | some sub =>
            simp only [hsub] at h
            injection h with h
            subst h
            have hlast : units.getLast? = some lu := by
              rw [← get?_of_last units pos hrest]
              exact hget
            refine ⟨rootedChain_push cli units lu t sub hlast hsub hchain, ?_⟩
            simp only [List.length_append, List.length_singleton]
            omega
          | none =>
            simp only [hsub] at h
            cases hval : lu.command.value with
            | none =>
              simp only [hval] at h
              exact Except.noConfusion h
            | some v =>
              simp only [hval] at h
              cases hpa : parse_arg v t with
              | error d =>
                simp only [hpa] at h
                exact Except.noConfusion h
              | ok value =>
                simp only [hpa] at h
                injection h with h
                subst h
                refine ⟨rootedChain_set cli units pos lu _ hget rfl rfl hchain, ?_⟩
                simpa [List.length_set] using hrest
  | parametersReaded params =>
    simp only at hrest
    cases hget : units.get? pos with
    | none =>
      simp only [stepToken, hget] at h
      exact Except.noConfusion h
    | some lu =>
      simp only [stepToken, hget] at h
      cases params with
      | nil => exact Except.noConfusion h
      | cons param rest =>
        cases hpa : parse_arg param.value_type t with
        | error d =>
          simp only [hpa] at h
          exact Except.noConfusion h
        | ok value =>
          simp only [hpa] at h
          by_cases hr2 : rest = []
          · rw [if_pos hr2] at h
            injection h with h
            subst h
            refine ⟨rootedChain_set cli units pos lu _ hget rfl rfl hchain, ?_⟩
            simpa [List.length_set] using hrest
          · rw [if_neg hr2] at h
            injection h with h
            subst h
            refine ⟨rootedChain_set cli units pos lu _ hget rfl rfl hchain, ?_⟩
            simpa [List.length_set] using hrest

theorem runTokens_inv (cli : Cli) : ∀ (ts : List Str) (s s' : LoopState),
    loopInv cli s → runTokens cli ts s = Except.ok s' → loopInv cli s' := by
  intro ts
  induction ts with
  | nil =>
    intro s s' hinv h
    simp only [runTokens] at h
    injection h with h
    subst h
    exact hinv
  | cons t ts ih =>
    intro s s' hinv h
    simp only [runTokens] at h
    cases hst : stepToken cli s t with
    | error e =>
      simp only [hst] at h
      exact Except.noConfusion h
    | ok s2 =>
      simp only [hst] at h
      exact ih s2 s' (stepToken_inv cli s s2 t hinv hst) h

/-! ## Claim theorems -/

/-- C1: the claim says a `-`-prefixed token is rejected as a value ("not a
value") whenever the declared type is not numeric.  The code's guard condition
`arg.starts_with('-') && !(arg_type != Int || arg_type != Float)` is always
false (`arg_type != Int || arg_type != Float` holds for every type), so the
rejection branch is dead code: coercing `-x` at type `String` succeeds, and in
general every `String`-typed coercion succeeds.  The unreachable error branch
in the source shows the rejection was intended — this is a code bug (a
mis-negated condition). -/
theorem c1_guard_is_dead_code :
    parse_arg ArgType.string (("-x").data) = Except.ok (ArgValue.string (("-x").data))
    ∧ ∀ a : Str, parse_arg ArgType.string a = Except.ok (ArgValue.string a) := by
  refine ⟨?_, fun a => ?_⟩ <;> simp [parse_arg]

/-- C2 counterexample: the claim says parsing `cmd sub` yields a `Context`
with exactly two units.  On `cli2` (a registered command `cmd` with subcommand
`sub` carrying the handler), the handler receives three units — `exec_line`
seeds the unit list with a unit for the implicit root before matching any
token (the repository's own test asserts `ctx.units.len() == 3`). -/
theorem c2_two_units_counterexample :
    unitsCount (Cli.exec_line cli2 (("cmd sub").data)) = some 3
    ∧ unitsCount (Cli.exec_line cli2 (("cmd sub").data)) ≠ some 2 := by
  constructor
  · decide
  · decide

/-- C2 amended: for **every** successful parse, the `Context` handed to the
handler holds one leading `ContextUnit` for the implicit root node, followed by
exactly one unit per matched command frame — each frame's command found in the
previous frame's subcommand map under the spelling recorded in the unit
(`rootedChain`) — and the command actually invoked is the last unit's, which
carries the handler.  In particular parsing `cmd sub` yields exactly three
units, named `root`, `cmd`, `sub` in order. -/
theorem c2_units_amended :
    (∀ (cli : Cli) (tokens : List Str) (ctx : Context),
      execTokens cli tokens = Except.ok (some ctx) →
      rootedChain cli ctx.units
      ∧ ∃ u, ctx.units.getLast? = some u ∧ u.command.exec = true)
    ∧ unitsCount (Cli.exec_line cli2 (("cmd sub").data)) = some 3
    ∧ unitNames (Cli.exec_line cli2 (("cmd sub").data))
        = some [("root").data, ("cmd").data, ("sub").data] := by
  refine ⟨?_, by decide, by decide⟩
  intro cli tokens ctx h
  unfold execTokens at h
  cases hrun : runTokens cli tokens (initState cli) with
  | error e =>
    simp only [hrun] at h
    exact Except.noConfusion h
  | ok s =>
    simp only [hrun] at h
    have hinv := runTokens_inv cli tokens (initState cli) s (loopInv_init cli) hrun
    obtain ⟨hu, hex⟩ := finishParse_ok s ctx h
    rw [hu]
    exact ⟨hinv.1, hex⟩

/-- C2 amended witness: the general part of `c2_units_amended` applied to the
concrete parse `cmd sub` on `cli2`, whose context is the three-unit chain
`root, cmd, sub`. -/
theorem c2_units_amended_witness :
    rootedChain cli2 [mkUnit ("root").data cli2.root.2, mkUnit ("cmd").data cmd2,
      mkUnit ("sub").data sub2]
    ∧ ∃ u, ([mkUnit ("root").data cli2.root.2, mkUnit ("cmd").data cmd2,
        mkUnit ("sub").data sub2].getLast?) = some u ∧ u.command.exec = true := by
  exact c2_units_amended.1 cli2 [("cmd").data, ("sub").data]
    { units := [mkUnit ("root").data cli2.root.2, mkUnit ("cmd").data cmd2,
        mkUnit ("sub").data sub2] }
    (by rfl)

/-- C5: on a command with `bool/int/float/string` parameters registered under
the single-character aliases `b,i,f,s`, the short cluster `-bifs` binds `bool`
to `Bool(true)` immediately and leaves `int,float,string` pending in
left-to-right character order; the next three plain tokens `42 4.2 bla` are
then coerced and bound to them respectively, and an unresolved cluster
character is a fatal `NotParameter` error. -/
theorem c5_short_cluster_expansion :
    runStateAfter cli5 [("cmd").data, ("-bifs").data]
      = some (ParseState.parametersReaded [pInt5, pFloat5, pString5])
    ∧ runBoundParam cli5 [("cmd").data, ("-bifs").data] 1 (("bool").data)
      = some (pBool5, ArgValue.bool true)
    ∧ unitParam (Cli.exec_line cli5 (("cmd -bifs 42 4.2 bla").data)) 1 (("bool").data)
      = some (pBool5, ArgValue.bool true)
    ∧ unitParam (Cli.exec_line cli5 (("cmd -bifs 42 4.2 bla").data)) 1 (("int").data)
      = some (pInt5, ArgValue.int 42)
    ∧ unitParam (Cli.exec_line cli5 (("cmd -bifs 42 4.2 bla").data)) 1 (("float").data)
      = some (pFloat5, ArgValue.float (mkRat 21 5))
    ∧ unitParam (Cli.exec_line cli5 (("cmd -bifs 42 4.2 bla").data)) 1 (("string").data)
      = some (pString5, ArgValue.string (("bla").data))
    ∧ Cli.exec_line cli5 (("cmd -bz").data)
      = Except.error { kind := ErrorKind.NotParameter, details := ("bz").data } := by
  refine ⟨?_, ?_, ?_, ?_, ?_, ?_, ?_⟩
  · decide
  · decide
  · decide
  · decide
  · decide
  · decide
  · rfl

/-- C7: Bool coercion yields `Bool(true)` exactly on `true/yes/1/on`,
`Bool(false)` exactly on `false/no/0/off` (case-sensitive), and fails with the
"not a boolean" message naming the accepted literals on any other text. -/
theorem c7_bool_coercion_total (s : Str) :
    (parse_arg ArgType.bool s = Except.ok (ArgValue.bool true) ↔ s ∈ trueLits)
    ∧ (parse_arg ArgType.bool s = Except.ok (ArgValue.bool false) ↔ s ∈ falseLits)
    ∧ (s ∉ trueLits → s ∉ falseLits → parse_arg ArgType.bool s = Except.error (boolErrMsg s)) := by
  by_cases ht : s ∈ trueLits
  · have ht' : s = (("true").data) ∨ s = (("yes").data) ∨ s = (("1").data) ∨ s = (("on").data) := by
      simpa [trueLits] using ht
    rcases ht' with rfl | rfl | rfl | rfl <;>
      exact ⟨iff_of_true (by decide) (by decide), iff_of_false (by decide) (by decide),
        fun h _ => absurd (by decide) h⟩
  · by_cases hf : s ∈ falseLits
    · have hf' : s = (("false").data) ∨ s = (("no").data) ∨ s = (("0").data) ∨ s = (("off").data) := by
        simpa [falseLits] using hf
      rcases hf' with rfl | rfl | rfl | rfl <;>
        exact ⟨iff_of_false (by decide) (by decide), iff_of_true (by decide) (by decide),
          fun _ h => absurd (by decide) h⟩
    · have hg : ¬(startsWithDash s = true
          ∧ ¬(ArgType.bool ≠ ArgType.int ∨ ArgType.bool ≠ ArgType.float)) := by simp
      have h1 : ¬(s = (("true").data) ∨ s = (("yes").data) ∨ s = (("1").data) ∨ s = (("on").data)) := by
        simpa [trueLits] using ht
      have h2 : ¬(s = (("false").data) ∨ s = (("no").data) ∨ s = (("0").data) ∨ s = (("off").data)) := by
        simpa [falseLits] using hf
      have he : parse_arg ArgType.bool s = Except.error (boolErrMsg s) := by
        simp only [parse_arg, if_neg hg, if_neg h1, if_neg h2]
      exact ⟨iff_of_false (by rw [he]; simp) ht, iff_of_false (by rw [he]; simp) hf,
        fun _ _ => he⟩

/-- C7 witness: the three cases of `c7_bool_coercion_total` at the concrete
inputs `on`, `off`, `zzz`. -/
theorem c7_bool_coercion_total_witness :
    parse_arg ArgType.bool (("on").data) = Except.ok (ArgValue.bool true)
    ∧ parse_arg ArgType.bool (("off").data) = Except.ok (ArgValue.bool false)
    ∧ parse_arg ArgType.bool (("zzz").data) = Except.error (boolErrMsg (("zzz").data)) := by
  refine ⟨?_, ?_, ?_⟩
  · exact (c7_bool_coercion_total (("on").data)).1.2 (by decide)
  · exact (c7_bool_coercion_total (("off").data)).2.1.2 (by decide)
  · exact (c7_bool_coercion_total (("zzz").data)).2.2 (by decide) (by decide)

/-- C6: whenever the token stream ends right after a long flag `--x` (or a
single-character short flag `-c`) that resolves, on the current command, to a
parameter whose type is not `Bool`, `exec_line` returns the
`ParameterValueMissed` error — so no handler is invoked; and whenever the
stream ends with more than one parameter still pending, it returns the
defensive `ParserError` instead. -/
theorem c6_missing_value_detection :
    (∀ (cli : Cli) (ts : List Str) (s : LoopState) (lu : ContextUnit) (x : Str) (p : Parameter),
      runTokens cli ts (initState cli) = Except.ok s →
      s.state = ParseState.readNext →
      s.units.get? s.pos = some lu →
      mapGet lu.command.parameters x = some p →
      p.value_type ≠ ArgType.bool →
      execTokens cli (ts ++ ['-' :: '-' :: x])
        = Except.error { kind := ErrorKind.ParameterValueMissed, details := paramMissedMsg p.name })
    ∧ (∀ (cli : Cli) (ts : List Str) (s : LoopState) (lu : ContextUnit) (c : Char) (p : Parameter),
      runTokens cli ts (initState cli) = Except.ok s →
      s.state = ParseState.readNext →
      s.units.get? s.pos = some lu →
      c ≠ '-' →
      mapGet lu.command.parameters [c] = some p →
      p.value_type ≠ ArgType.bool →
      execTokens cli (ts ++ [['-', c]])
        = Except.error { kind := ErrorKind.ParameterValueMissed, details := paramMissedMsg p.name })
    ∧ (∀ (cli : Cli) (ts : List Str) (s : LoopState) (ps : List Parameter),
      runTokens cli ts (initState cli) = Except.ok s →
      s.state = ParseState.parametersReaded ps →
      1 < ps.length →
      execTokens cli ts
        = Except.error { kind := ErrorKind.ParserError, details := wrongParamsMsg ps.length }) := by
  refine ⟨?_, ?_, ?_⟩
  · intro cli ts s lu x p hrun hstate hget hp hb
    obtain ⟨units, st, pos⟩ := s
    simp only at hstate hget
    subst hstate
    have hstep : stepToken cli { units := units, state := ParseState.readNext, pos := pos }
        ('-' :: '-' :: x)
        = Except.ok { units := units, state := ParseState.parametersReaded [p], pos := pos } := by
      simp only [stepToken, hget, stripTwoDash_two, hp, if_neg hb]
    have hfull : runTokens cli (ts ++ ['-' :: '-' :: x]) (initState cli)
        = Except.ok { units := units, state := ParseState.parametersReaded [p], pos := pos } := by
      rw [runTokens_append, hrun]
      simp only [runTokens, hstep]
    unfold execTokens
    rw [hfull]
    exact finishParse_single_pending units pos p hb
  · intro cli ts s lu c p hrun hstate hget hc hp hb
    obtain ⟨units, st, pos⟩ := s
    simp only at hstate hget
    subst hstate
    have hstep : stepToken cli { units := units, state := ParseState.readNext, pos := pos }
        ['-', c]
        = Except.ok { units := units.set pos lu, state := ParseState.parametersReaded [p], pos := pos } := by
      simp only [stepToken, hget, stripTwoDash_ne c hc, stripOneDash_cons,
        clusterScan, hp, if_neg hb, List.nil_append]
      simp
    have hfull : runTokens cli (ts ++ [['-', c]]) (initState cli)
        = Except.ok { units := units.set pos lu, state := ParseState.parametersReaded [p], pos := pos } := by
      rw [runTokens_append, hrun]
      simp only [runTokens, hstep]
    unfold execTokens
    rw [hfull]
    exact finishParse_single_pending (units.set pos lu) pos p hb
  · intro cli ts s ps hrun hstate hlen
    obtain ⟨units, st, pos⟩ := s
    simp only at hstate
    subst hstate
    unfold execTokens
    rw [hrun]
    simp only [finishParse]
    rw [if_pos hlen]

/-- C6 witness: the three cases at concrete inputs on `cli5` — the token
streams `cmd --int`, `cmd -i` and `cmd -if` (two pending parameters at end of
input). -/
theorem c6_missing_value_detection_witness :
    execTokens cli5 ([("cmd").data] ++ ['-' :: '-' :: ("int").data])
      = Except.error { kind := ErrorKind.ParameterValueMissed, details := paramMissedMsg pInt5.name }
    ∧ execTokens cli5 ([("cmd").data] ++ [['-', 'i']])
      = Except.error { kind := ErrorKind.ParameterValueMissed, details := paramMissedMsg pInt5.name }
    ∧ execTokens cli5 [("cmd").data, ("-if").data]
      = Except.error { kind := ErrorKind.ParserError, details := wrongParamsMsg 2 } := by
  refine ⟨?_, ?_, ?_⟩
  · exact c6_missing_value_detection.1 cli5 [("cmd").data] s5 (mkUnit ("cmd").data cmd5)
      (("int").data) pInt5 (by rfl) rfl rfl (by decide) (by decide)
  · exact c6_missing_value_detection.2.1 cli5 [("cmd").data] s5 (mkUnit ("cmd").data cmd5)
      'i' pInt5 (by rfl) rfl rfl (by decide) (by decide) (by decide)
  · exact c6_missing_value_detection.2.2 cli5 [("cmd").data, ("-if").data]
      { units := [mkUnit ("root").data cli5.root.2,
          { name := ("cmd").data, command := cmd5, parameters := [], value := none }],
        state := ParseState.parametersReaded [pInt5, pFloat5], pos := 1 }
      [pInt5, pFloat5] (by rfl) rfl (by decide)

/-- C8: in the `ReadNext` state a token starting with `-` is always resolved
by parameter lookup, never by subcommand lookup: if `--x` (resp. `-c`) does not
resolve among the current command's parameters the step fails with
`NotParameter` regardless of any subcommand named `x` (or `--x`), and whenever
such a step succeeds it never pushes a new context unit (subcommand resolution
is the only transition that pushes one and advances `pos`). -/
theorem c8_flag_lookup_priority :
    (∀ (cli : Cli) (s : LoopState) (lu : ContextUnit) (x : Str),
      s.state = ParseState.readNext →
      s.units.get? s.pos = some lu →
      mapGet lu.command.parameters x = none →
      stepToken cli s ('-' :: '-' :: x)
        = Except.error { kind := ErrorKind.NotParameter, details := x })
    ∧ (∀ (cli : Cli) (s : LoopState) (lu : ContextUnit) (c : Char),
      s.state = ParseState.readNext →
      s.units.get? s.pos = some lu →
      c ≠ '-' →
      mapGet lu.command.parameters [c] = none →
      stepToken cli s ['-', c]
        = Except.error { kind := ErrorKind.NotParameter, details := [c] })
    ∧ (∀ (cli : Cli) (s : LoopState) (lu : ContextUnit) (rest : Str) (s' : LoopState),
      s.state = ParseState.readNext →
      s.units.get? s.pos = some lu →
      stepToken cli s ('-' :: rest) = Except.ok s' →
      s'.units.length = s.units.length ∧ s'.pos = s.pos) := by
  refine ⟨?_, ?_, ?_⟩
  · intro cli s lu x hstate hget hp
    obtain ⟨units, st, pos⟩ := s
    simp only at hstate hget
    subst hstate
    simp only [stepToken, hget, stripTwoDash_two, hp]
  · intro cli s lu c hstate hget hc hp
    obtain ⟨units, st, pos⟩ := s
    simp only at hstate hget
    subst hstate
    simp only [stepToken, hget, stripTwoDash_ne c hc, stripOneDash_cons, clusterScan, hp]
  · intro cli s lu rest s' hstate hget hok
    obtain ⟨units, st, pos⟩ := s
    simp only at hstate hget
    subst hstate
    rcases rest with _ | ⟨c, cs⟩
    · simp only [stepToken, hget, stripTwoDash_one, stripOneDash_cons, clusterScan] at hok
      simp only [if_neg (by simp : ¬(([] : List Parameter) ≠ []))] at hok
      rw [list_set_self units pos lu hget] at hok
      injection hok with h
      subst h
      exact ⟨rfl, rfl⟩
    · by_cases hc : c = '-'
      · subst hc
        simp only [stepToken, hget, stripTwoDash_two] at hok
        cases hp : mapGet lu.command.parameters cs with
        | none =>
          simp only [hp] at hok
          exact Except.noConfusion hok
        | some p =>
          simp only [hp] at hok
          by_cases hbp : p.value_type = ArgType.bool
          · rw [if_pos hbp] at hok
            injection hok with h
            subst h
            exact ⟨by simp [List.length_set], rfl⟩
          · rw [if_neg hbp] at hok
            injection hok with h
            subst h
            exact ⟨rfl, rfl⟩
      · simp only [stepToken, hget, stripTwoDash_ne c hc, stripOneDash_cons] at hok
        cases hscan : clusterScan lu.command (c :: cs) (c :: cs) lu [] with
        | error e =>
          simp only [hscan] at hok
          exact Except.noConfusion hok
        | ok r =>
          simp only [hscan] at hok
          obtain ⟨u', ps⟩ := r
          by_cases hps : ps = []
          · subst hps
            simp only [if_neg (by simp : ¬(([] : List Parameter) ≠ []))] at hok
            injection hok with h
            subst h
            exact ⟨by simp [List.length_set], rfl⟩
          · simp only [if_pos hps] at hok
            injection hok with h
            subst h
            exact ⟨by simp [List.length_set], rfl⟩

/-- C8 witness: on `cli8b`, whose command `cmd` has a subcommand named `x` and
no parameter `x`, the tokens `--x` and `-x` fail with `NotParameter` (the
subcommand named `x` is never consulted), even though the subcommand exists. -/
theorem c8_flag_lookup_priority_witness :
    stepToken cli8b s8 ('-' :: '-' :: ("x").data)
      = Except.error { kind := ErrorKind.NotParameter, details := ("x").data }
    ∧ stepToken cli8b s8 ['-', 'x']
      = Except.error { kind := ErrorKind.NotParameter, details := ['x'] }
    ∧ (mapGet cmd8.subcommands (("x").data)).isSome = true := by
  refine ⟨?_, ?_, by decide⟩
  · exact c8_flag_lookup_priority.1 cli8b s8 (mkUnit ("cmd").data cmd8) (("x").data)
      rfl rfl (by decide)
  · exact c8_flag_lookup_priority.2.1 cli8b s8 (mkUnit ("cmd").data cmd8) 'x'
      rfl rfl (by decide) (by decide)

/-- C9: in `ReadNext` a bare `-` token is consumed silently — the step returns
the state unchanged (nothing bound, no error) — while a bare `-` as the very
first token is rejected with `CantExecuteParameter`; consequently
`cmd -` parses exactly like `cmd` (shown on `cli5`). -/
theorem c9_bare_dash_is_noop :
    (∀ (cli : Cli) (s : LoopState) (lu : ContextUnit),
      s.state = ParseState.readNext →
      s.units.get? s.pos = some lu →
      stepToken cli s ['-'] = Except.ok s)
    ∧ (∀ (cli : Cli) (s : LoopState),
      s.state = ParseState.readFirst →
      stepToken cli s ['-']
        = Except.error { kind := ErrorKind.CantExecuteParameter, details := ['-'] })
    ∧ Cli.exec_line cli5 (("cmd -").data) = Cli.exec_line cli5 (("cmd").data) := by
  refine ⟨?_, ?_, ?_⟩
  · intro cli s lu hstate hget
    obtain ⟨units, st, pos⟩ := s
    simp only at hstate hget
    subst hstate
    simp only [stepToken, hget, stripTwoDash_one, stripOneDash_cons, clusterScan]
    simp only [if_neg (by simp : ¬(([] : List Parameter) ≠ []))]
    rw [list_set_self units pos lu hget]
  · intro cli s hstate
    obtain ⟨units, st, pos⟩ := s
    simp only at hstate
    subst hstate
    rfl
  · rfl

/-- C9 witness: the two general parts of `c9_bare_dash_is_noop` instantiated
on `cli5` — a bare `-` after `cmd` is a no-op, a bare `-` as first token is
rejected. -/
theorem c9_bare_dash_is_noop_witness :
    stepToken cli5 s5 ['-'] = Except.ok s5
    ∧ stepToken cli5 (initState cli5) ['-']
      = Except.error { kind := ErrorKind.CantExecuteParameter, details := ['-'] } := by
  constructor
  · exact c9_bare_dash_is_noop.1 cli5 s5 (mkUnit ("cmd").data cmd5) rfl rfl
  · exact c9_bare_dash_is_noop.2.1 cli5 (initState cli5) rfl

/-- C3 counterexample: the claim says a collision is fatal "including the case
where the colliding key is introduced by an alias".  Starting from a parameter
map already holding key `x`, registering a new parameter named `y` with alias
`x` does **not** fail: `add_parameter` only checks the new canonical name, then
inserts the aliases unconditionally, silently overwriting the previous
parameter registered under `x`. -/
theorem c3_alias_collision_counterexample :
    add_parameter [(("x").data, pX3)] pbY3
      = Except.ok [(("x").data, pY3), (("y").data, pY3)] := by
  decide

/-- C3 amended: registering a command or parameter whose canonical name equals
an existing key (whether that key was previously registered as a name or as an
alias) fails fatally with the corresponding panic message; a collision
introduced by the new entry's own alias is not detected — registration
succeeds whenever the canonical name is fresh, and the aliases are inserted
unconditionally (overwriting any existing entry under those keys). -/
theorem c3_duplicate_name_validation :
    (∀ (m : SMap Command) (cb : CommandBuilder) (nh : Bool) (exist : Command),
      mapGet m cb.name = some exist →
      addCommand m cb nh
        = Except.error (cmdExistsMsg cb.name (exist.description.getD []) (cb.description.getD [])))
    ∧ (∀ (m : SMap Parameter) (pb : ParameterBuilder),
      (mapGet m pb.name).isSome →
      add_parameter m pb = Except.error (paramExistsMsg pb.name))
    ∧ (∀ (m : SMap Parameter) (pb : ParameterBuilder),
      mapGet m pb.name = none →
      add_parameter m pb
        = Except.ok (insertKeys
            { name := pb.name, value_type := pb.value_type, description := pb.description.getD [] }
            pb.aliases
            (mapInsert m pb.name
              { name := pb.name, value_type := pb.value_type, description := pb.description.getD [] }))) := by
  refine ⟨?_, ?_, ?_⟩
  · intro m cb nh exist h
    unfold addCommand
    simp only [h]
  · intro m pb h
    unfold add_parameter
    rw [if_pos h]
  · intro m pb h
    unfold add_parameter
    rw [if_neg (by simp [h])]

/-- C3 witness: the fatal cases at concrete inputs — a parameter whose
canonical name `ax` collides with a key previously introduced as an *alias*
(of parameter `a`), and a command whose canonical name `c` collides with an
existing command key. -/
theorem c3_duplicate_name_validation_witness :
    add_parameter [(("a").data, pA3), (("ax").data, pA3)]
        { name := ("ax").data, aliases := [], description := none, value_type := ArgType.int }
      = Except.error (paramExistsMsg (("ax").data))
    ∧ addCommand [(("c").data, sub2)] (CommandBuilder.mk (("c").data) [] [] none none [] true) false
      = Except.error (cmdExistsMsg (("c").data) [] []) := by
  constructor
  · exact c3_duplicate_name_validation.2.1 [(("a").data, pA3), (("ax").data, pA3)]
      { name := ("ax").data, aliases := [], description := none, value_type := ArgType.int }
      (by decide)
  · exact c3_duplicate_name_validation.1 [(("c").data, sub2)]
      (CommandBuilder.mk (("c").data) [] [] none none [] true) false sub2 rfl

/-- Lean's ASCII whitespace characters are Unicode `White_Space`. -/
theorem leanWs_rustWs (c : Char) (h : c.isWhitespace = true) : rustIsWhitespace c = true := by
  simp only [Char.isWhitespace, Bool.or_eq_true, decide_eq_true_eq] at h
  rcases h with ((h | h) | h) | h <;> subst h <;> decide

/-- Auxiliary for C10: a whitespace-only remainder produces no tokens. -/
theorem splitGo_all_ws (line : Str) (l : List Char) :
    (∀ c ∈ l, c.isWhitespace = true) → ∀ i, splitGo line l i LineScanState.endWord = [] := by
  induction l with
  | nil => intro _ _; rfl
  | cons c cs ih =>
    intro h i
    have hc : rustIsWhitespace c = true := leanWs_rustWs c (h c (List.mem_cons_self c cs))
    simp only [splitGo, hc, if_true]
    exact ih (fun d hd => h d (List.mem_cons_of_mem c hd)) (i + 1)

/-- Auxiliary for C10: on an empty token stream, any `Cli` whose root is the
implicit handler-less root node fails with `CantExecuteCommand` for `root`. -/
theorem exec_line_root_no_handler (M : SMap Command) (pe ph : Bool) (line : Str)
    (hsplit : splitLine line = []) :
    Cli.exec_line { root := (("root").data, Command.mk M none none [] false),
                    need_print_error := pe, need_print_help := ph } line
      = Except.error { kind := ErrorKind.CantExecuteCommand,
                       details := ("No handler for command: root").data } := by
  unfold Cli.exec_line execTokens
  rw [hsplit]
  rfl

/-- C10: for every built `Cli` and every empty or whitespace-only line,
`exec_line` returns the `CantExecuteCommand` ("no handler") error for the
implicit root — which `CliBuilder::build` always creates without a handler —
and never invokes a handler nor returns `Ok`. -/
theorem c10_blank_line_no_handler :
    ∀ (b : CliBuilder) (cli : Cli) (line : Str),
      cliBuild b = Except.ok cli →
      (∀ c ∈ line, c.isWhitespace = true) →
      Cli.exec_line cli line
        = Except.error { kind := ErrorKind.CantExecuteCommand,
                         details := ("No handler for command: root").data } := by
  intro b cli line hbuild hws
  have hsplit : splitLine line = [] := splitGo_all_ws line line hws 0
  unfold cliBuild at hbuild
  split at hbuild
  · exact Except.noConfusion hbuild
  · split at hbuild
    · dsimp only [] at hbuild
      split at hbuild
      · exact Except.noConfusion hbuild
      · injection hbuild with h
        subst h
        exact exec_line_root_no_handler _ _ _ line hsplit
    · dsimp only [] at hbuild
      injection hbuild with h
      subst h
      exact exec_line_root_no_handler _ _ _ line hsplit

/-! ### Auxiliary lemmas for the tokenizer round-trip (C4) -/

theorem drop_shift {α : Type} (l : List α) (s n : Nat) :
    l.drop (s + n) = (l.drop s).drop n := by
  rw [List.drop_drop, Nat.add_comm]

theorem drop_succ_cons {α : Type} {l r : List α} {c : α} {i : Nat}
    (h : l.drop i = c :: r) : l.drop (i + 1) = r := by
  have h2 : l.drop (i + 1) = (l.drop i).drop 1 := drop_shift l i 1
  rw [h2, h]
  rfl

theorem strSlice_append (line u v : Str) (s : Nat) (h : line.drop s = u ++ v) :
    strSlice line s (s + u.length) = u := by
  unfold strSlice
  have h1 : s + u.length - s = u.length := by omega
  rw [h1, h, List.take_left]

theorem joinSp_cons (w : Str) (ws : List Str) : joinSp (w :: ws) = w ++ wsRest ws := by
  cases ws with
  | nil => simp [joinSp, wsRest]
  | cons a l => rfl

/-- Scanning the remaining characters `v` of an unquoted word whose scanned
prefix `u` began at position `s`: the word `u ++ v` is emitted (by slice from
`s`), followed by the tokens of the remaining words `ws'`. -/
theorem splitGo_word (line : Str) (ws' : List Str)
    (hcont : ∀ j, line.drop j = joinSp ws' →
      splitGo line (joinSp ws') j LineScanState.endWord = ws') :
    ∀ (v u : Str) (s : Nat),
      v ≠ [] → (∀ c ∈ v, rustIsWhitespace c = false) →
      (ws' = [] → lastCharOneByte v) → u ≠ [] →
      line.drop s = u ++ (v ++ wsRest ws') →
      splitGo line (v ++ wsRest ws') (s + u.length) (LineScanState.startWord s none)
        = (u ++ v) :: ws' := by
  intro v
  induction v with
  | nil =>
    intro u s hv
    exact absurd rfl hv
  | cons c v2 ih =>
    intro u s _ hvchars hone hu hdrop
    have hc : rustIsWhitespace c = false := hvchars c (List.mem_cons_self _ _)
    show splitGo line (c :: (v2 ++ wsRest ws')) (s + u.length) (LineScanState.startWord s none)
      = (u ++ c :: v2) :: ws'
    simp only [splitGo, hc, Bool.false_eq_true, if_false]
    cases v2 with
    | nil =>
      cases ws' with
      | nil =>
        have hsize : c.utf8Size = 1 := hone rfl c (by simp)
        simp only [wsRest, List.nil_append]
        rw [if_pos ⟨trivial, hsize⟩]
        have h2 : line.drop s = (u ++ [c]) ++ ([] : Str) := by
          simpa [wsRest, List.append_assoc] using hdrop
        have h3 := strSlice_append line (u ++ [c]) [] s h2
        simp only [List.length_append, List.length_singleton] at h3
        rw [show s + u.length + 1 = s + (u.length + 1) by omega, h3]
      | cons w1 ws2 =>
        have hwr : wsRest (w1 :: ws2) = ' ' :: joinSp (w1 :: ws2) := rfl
        rw [hwr]
        simp only [List.nil_append]
        rw [if_neg (by simp)]
        simp only [splitGo, show rustIsWhitespace ' ' = true by decide, if_true]
        have h2 : line.drop s = (u ++ [c]) ++ (' ' :: joinSp (w1 :: ws2)) := by
          rw [hdrop, hwr]
          simp [List.append_assoc]
        have h3 := strSlice_append line (u ++ [c]) (' ' :: joinSp (w1 :: ws2)) s h2
        simp only [List.length_append, List.length_singleton] at h3
        have hdropi : line.drop (s + u.length) = c :: (' ' :: joinSp (w1 :: ws2)) := by
          rw [drop_shift, hdrop, List.drop_left, hwr]
          rfl
        have hdrop1 : line.drop (s + u.length + 1) = ' ' :: joinSp (w1 :: ws2) :=
          drop_succ_cons hdropi
        have hdrop2 : line.drop (s + u.length + 1 + 1) = joinSp (w1 :: ws2) :=
          drop_succ_cons hdrop1
        rw [show s + u.length + 1 = s + (u.length + 1) by omega, h3]
        rw [show s + (u.length + 1) + 1 = s + u.length + 1 + 1 by omega]
        rw [hcont (s + u.length + 1 + 1) hdrop2]
    | cons d v3 =>
      rw [if_neg (by simp)]
      have hih := ih (u ++ [c]) s (by simp)
        (fun e he => hvchars e (List.mem_cons_of_mem c he))
        (fun hw a ha => hone hw a (by rw [List.getLast?_cons_cons]; exact ha))
        (by simp)
        (by rw [hdrop]; simp [List.append_assoc])
      simp only [List.length_append, List.length_singleton] at hih
      rw [show s + u.length + 1 = s + (u.length + 1) by omega]
      rw [show ((u ++ [c]) ++ (d :: v3)) = u ++ c :: d :: v3 by simp] at hih
      exact hih

/-- The tokenizer round-trip on a space-joined list of plain words, from any
start position.  The last word must end in a single-byte character: under the
byte-exact end-of-line check a final multi-byte character emits nothing. -/
theorem splitGo_words (line : Str) :
    ∀ (ws : List Str), (∀ w ∈ ws, plainWord w) →
      (∀ w, ws.getLast? = some w → lastCharOneByte w) →
      ∀ i, line.drop i = joinSp ws →
      splitGo line (joinSp ws) i LineScanState.endWord = ws := by
  intro ws
  induction ws with
  | nil =>
    intro _ _ i _
    rfl
  | cons w ws' ih =>
    intro hws hone i hdrop
    have hpw : plainWord w := hws w (List.mem_cons_self _ _)
    obtain ⟨hwne, hwchars⟩ := hpw
    obtain ⟨c, w2, rfl⟩ : ∃ c w2, w = c :: w2 := by
      cases w with
      | nil => exact absurd rfl hwne
      | cons c w2 => exact ⟨c, w2, rfl⟩
    obtain ⟨hc, hcq, hcd⟩ := hwchars c (List.mem_cons_self _ _)
    have hws' : ∀ w ∈ ws', plainWord w := fun w hw => hws w (List.mem_cons_of_mem _ hw)
    have honeTail : ∀ u, ws'.getLast? = some u → lastCharOneByte u := by
      intro u hu
      apply hone u
      cases ws' with
      | nil => exact absurd hu (by simp)
      | cons a l =>
        rw [List.getLast?_cons_cons]
        exact hu
    rw [joinSp_cons] at hdrop ⊢
    show splitGo line (c :: (w2 ++ wsRest ws')) i LineScanState.endWord = (c :: w2) :: ws'
    simp only [splitGo, hc, Bool.false_eq_true, if_false]
    have hnq : ¬(c = '\'' ∨ c = '"') := by
      intro h
      rcases h with h | h
      · exact hcq h
      · exact hcd h
    rw [if_neg hnq, if_neg hnq]
    cases w2 with
    | nil =>
      cases ws' with
      | nil =>
        have hsize : c.utf8Size = 1 := hone [c] (by simp) c (by simp)
        simp only [wsRest, List.nil_append]
        rw [if_pos ⟨trivial, hsize⟩]
        have h2 : line.drop i = ([c] ++ ([] : Str)) := by
          simpa [wsRest] using hdrop
        have h3 := strSlice_append line [c] [] i h2
        simp only [List.length_singleton] at h3
        rw [h3]
      | cons w1 ws2 =>
        have hwr : wsRest (w1 :: ws2) = ' ' :: joinSp (w1 :: ws2) := rfl
        rw [hwr]
        simp only [List.nil_append]
        rw [if_neg (by simp)]
        simp only [splitGo, show rustIsWhitespace ' ' = true by decide, if_true]
        have h2 : line.drop i = [c] ++ (' ' :: joinSp (w1 :: ws2)) := by
          rw [hdrop, hwr]
        have h3 := strSlice_append line [c] (' ' :: joinSp (w1 :: ws2)) i h2
        simp only [List.length_singleton] at h3
        have hdrop1 : line.drop (i + 1) = ' ' :: joinSp (w1 :: ws2) := by
          have hx : line.drop i = c :: (' ' :: joinSp (w1 :: ws2)) := by simpa using h2
          exact drop_succ_cons hx
        have hdrop2 : line.drop (i + 1 + 1) = joinSp (w1 :: ws2) := drop_succ_cons hdrop1
        rw [h3, ih hws' honeTail (i + 1 + 1) hdrop2]
    | cons d w3 =>
      rw [if_neg (by simp)]
      have hone2 : ws' = [] → lastCharOneByte (d :: w3) := by
        intro hw
        subst hw
        intro a ha
        exact hone (c :: d :: w3) (by simp) a (by rw [List.getLast?_cons_cons]; exact ha)
      have hih := splitGo_word line ws' (fun j hj => ih hws' honeTail j hj) (d :: w3) [c] i
        (by simp)
        (by intro e he
            exact (hwchars e (List.mem_cons_of_mem c he)).1)
        hone2
        (by simp)
        (by rw [hdrop]; simp)
      simp only [List.length_singleton] at hih
      rw [show ([c] ++ (d :: w3)) = c :: d :: w3 by simp] at hih
      exact hih

/-- C4 counterexample: the claim says a quote opened but never closed before
end-of-line still emits the in-progress word.  On the line `"one ` (open quote,
word, trailing space) the scanner is inside a quoted word when the final
character — a whitespace — is reached; the end-of-line emission only runs in
the non-whitespace branch, so the in-progress word `one ` is silently dropped
and `split` yields no token at all. -/
theorem c4_tokenizer_counterexample :
    splitLine (("\"one ").data) = ([] : List Str)
    ∧ splitLine (("\"one ").data) ≠ [("one ").data] := by
  constructor
  · decide
  · decide

/-- C4 amended: for every line composed of space-separated plain unquoted
words whose last word ends in a single-byte character, `split` yields exactly
those words in order (this also covers a line ending inside an unquoted word);
a quoted segment is emitted as one token with the quotes excluded; a quote
opened but never closed still emits the in-progress word provided the line's
final character is a non-whitespace single-byte character.  If the line ends
with a whitespace character while the quote is open, or ends with a multi-byte
character (the end-of-line emission compares byte offsets), the in-progress
word is silently dropped — so `split("é")` and `split("\"one ")` both yield no
token, while `'\x0b'` (Unicode whitespace) separates words. -/
theorem c4_tokenizer_round_trip :
    (∀ ws : List Str, (∀ w ∈ ws, plainWord w) →
      (∀ w, ws.getLast? = some w → lastCharOneByte w) →
      splitLine (joinSp ws) = ws)
    ∧ splitLine (("one \"two; two and half\" three").data)
        = [("one").data, ("two; two and half").data, ("three").data]
    ∧ splitLine (("one two \"three").data)
        = [("one").data, ("two").data, ("three").data]
    ∧ splitLine (("é").data) = ([] : List Str)
    ∧ splitLine (['a', '\x0b', 'b']) = [[('a' : Char)], [('b' : Char)]] := by
  refine ⟨?_, by decide, by decide, by decide, by decide⟩
  intro ws hws hone
  exact splitGo_words (joinSp ws) ws hws hone 0 (by simp)

/-- C4 witness: the general round trip of `c4_tokenizer_round_trip`
instantiated at the word list `["one","two","three"]`. -/
theorem c4_tokenizer_round_trip_witness :
    splitLine (joinSp [("one").data, ("two").data, ("three").data])
      = [("one").data, ("two").data, ("three").data] := by
  exact c4_tokenizer_round_trip.1 [("one").data, ("two").data, ("three").data]
    (by decide) (by decide)

/-- C10 witness: the empty builder produces a `Cli` on which the whitespace
line `"  "` fails with the "no handler for root" error. -/
theorem c10_blank_line_no_handler_witness :
    Cli.exec_line { root := (("root").data, Command.mk [] none none [] false),
                    need_print_error := false, need_print_help := false } (("  ").data)
      = Except.error { kind := ErrorKind.CantExecuteCommand,
                       details := ("No handler for command: root").data } := by
  have hb : cliBuild { commands := [], need_print_error := false, need_print_help := false }
      = Except.ok { root := (("root").data, Command.mk [] none none [] false),
                    need_print_error := false, need_print_help := false } := by
    simp [cliBuild, buildSubs]
  exact c10_blank_line_no_handler
    { commands := [], need_print_error := false, need_print_help := false }
    _ (("  ").data) hb (by decide)

end CleanCli
